import Mathlib

/-
  Verification of the delta diff post-processor against its specification.

  Part 1 models `run_app` from src/src/mainfn.rs: the entry shim that
  dispatches subcommands, the two-file diff, and the stdin diff pipeline,
  recording the externally visible effects and the process outcome.
  External calls (the subcommands, the two-file diff, the delta pipeline,
  `fatal`) live outside src/ and are supplied as an oracle environment.

  Part 2 models the diff annotation engine (Line Classifier, Line Pairer,
  Intra-Line Differencer, Style Merger), which is not under src/; those
  definitions are modelled from the specification, as marked in their
  doc comments.
-/

namespace Delta

/-- The two classes of I/O error that `run_app` distinguishes
(`std::io::ErrorKind::BrokenPipe` versus everything else). -/
inductive ErrKind
  | brokenPipe
  | other
deriving DecidableEq

/-- Result of a fallible external call (`std::io::Result<()>`): success,
or an I/O error of one of the two distinguished kinds. -/
inductive IORes
  | ok
  | error (k : ErrKind)
deriving DecidableEq

/-- Command-line options relevant to `run_app` (src/src/mainfn.rs).
`cli::Opt` itself is built outside src/; only the fields that `run_app`
reads are modelled.  `minus_file`, `plus_file` and `error_exit_code` are
read through `config::Config::from(opt)`, which passes them through
unchanged (Config is outside src/; the pass-through is modelled from the
claims' wording "the configured error_exit_code"). -/
structure Opt where
  list_languages : Bool
  list_syntax_themes : Bool
  show_syntax_themes : Bool
  show_themes : Bool
  show_colors : Bool
  parse_ansi : Bool
  show_config : Bool
  minus_file : Option String
  plus_file : Option String
  error_exit_code : Int

/-- The six auxiliary subcommands that `run_app` can dispatch. -/
inductive Subcmd
  | listLanguages
  | listSyntaxThemes
  | showSyntaxThemes
  | showThemes
  | showColors
  | parseAnsi
deriving DecidableEq

/-- Results of the external calls made by `run_app`; these functions live
outside src/ (subcommands, the two-file diff, the delta pipeline), so their
results are supplied as an oracle. -/
structure Env where
  subcommandResult : Subcmd → IORes
  showConfigResult : IORes
  diffExitCode : Int
  deltaResult : IORes

/-- Externally visible effects of a `run_app` run, in program order. -/
inductive Effect
  | runSubcommand (sc : Subcmd)
  | reportError
  | showConfig
  | startPager
  | runDiff
  | printUsage
  | runDelta
deriving DecidableEq

/-- Whether an effect is the dispatch of a subcommand. -/
def isDispatchEffect : Effect → Bool
  | Effect.runSubcommand _ => true
  | _ => false

/-- How the process ends, as decided by `run_app`:
`exitCode c` is `run_app` returning `Ok(c)` (then `mainfn` calls
`process::exit(c)`); `fatalExit` is the `fatal(...)` call in the
subcommand error branch (modelled from the spec, §7: the failure is
reported once and the program ends with a distinguished non-zero
outcome, never returning to `run_app`); `errPropagated` is `run_app`
returning `Err` via the `?` on `show_config`. -/
inductive Outcome
  | exitCode (c : Int)
  | fatalExit
  | errPropagated (k : ErrKind)
deriving DecidableEq

/-- The subcommand selected by the `if`/`else if` chain of `run_app`
(src/src/mainfn.rs lines 44-63), in that fixed precedence order. -/
def chooseSubcommand (opt : Opt) : Option Subcmd :=
  if opt.list_languages then some Subcmd.listLanguages
  else if opt.list_syntax_themes then some Subcmd.listSyntaxThemes
  else if opt.show_syntax_themes then some Subcmd.showSyntaxThemes
  else if opt.show_themes then some Subcmd.showThemes
  else if opt.show_colors then some Subcmd.showColors
  else if opt.parse_ansi then some Subcmd.parseAnsi
  else none

/-- Whether any of the six subcommand flags is set. -/
def anySubcommandFlag (opt : Opt) : Bool :=
  opt.list_languages || opt.list_syntax_themes || opt.show_syntax_themes
    || opt.show_themes || opt.show_colors || opt.parse_ansi

/-- Shallow embedding of `run_app` (src/src/mainfn.rs lines 40-110).
Returns the effect trace and the process outcome.
Branch by branch against the source:
* lines 44-71: if a subcommand flag is set, run that one subcommand; on
  `Err(BrokenPipe)` do nothing, on any other error call `fatal`; otherwise
  return `Ok(0)`.
* lines 74-81: if `show_config` is set, run it and return `Ok(0)`,
  propagating its error with `?`.
* lines 83-85: build the pager output (`OutputType::from_mode`, the Writer).
* lines 87-101: match on `(minus_file, plus_file)`: both absent falls
  through; both present runs the two-file diff and returns its exit code;
  exactly one present prints the usage message and returns
  `config.error_exit_code`.
* lines 103-109: run the delta pipeline on stdin; `Err(BrokenPipe)`
  returns `Ok(0)`; any other error is printed to stderr; then `Ok(0)`. -/
def run_app (opt : Opt) (env : Env) : List Effect × Outcome :=
  match chooseSubcommand opt with
  | some sc =>
    match env.subcommandResult sc with
    | IORes.ok => ([Effect.runSubcommand sc], Outcome.exitCode 0)
    | IORes.error ErrKind.brokenPipe =>
        ([Effect.runSubcommand sc], Outcome.exitCode 0)
    | IORes.error ErrKind.other =>
        ([Effect.runSubcommand sc, Effect.reportError], Outcome.fatalExit)
  | none =>
    if opt.show_config then
      match env.showConfigResult with
      | IORes.ok => ([Effect.showConfig], Outcome.exitCode 0)
      | IORes.error k => ([Effect.showConfig], Outcome.errPropagated k)
    else
      match opt.minus_file, opt.plus_file with
      | none, none =>
        match env.deltaResult with
        | IORes.ok =>
            ([Effect.startPager, Effect.runDelta], Outcome.exitCode 0)
        | IORes.error ErrKind.brokenPipe =>
            ([Effect.startPager, Effect.runDelta], Outcome.exitCode 0)
        | IORes.error ErrKind.other =>
            ([Effect.startPager, Effect.runDelta, Effect.reportError],
             Outcome.exitCode 0)
      | some _, some _ =>
          ([Effect.startPager, Effect.runDiff],
           Outcome.exitCode env.diffExitCode)
      | _, _ =>
          ([Effect.startPager, Effect.printUsage],
           Outcome.exitCode opt.error_exit_code)

/-- Modelled from the spec: the delta pipeline (outside src/) is a
streaming loop that reads input lines in order, writes each line's
rendering through the Writer capability, and on the first write failure
stops processing further input and returns that failure to the caller
(§4.6, §5, §7: "a write failure is not retried — it is propagated
immediately"; "the pipeline must stop processing further input").
`w` gives the result of the n-th write.  Returns how many lines were
processed together with the pipeline's result. -/
def runPipeline : List (List Char) → (Nat → IORes) → Nat → Nat × IORes
  | [], _, _ => (0, IORes.ok)
  | _ :: ls, w, i =>
    match w i with
    | IORes.ok => ((runPipeline ls w (i + 1)).1 + 1, (runPipeline ls w (i + 1)).2)
    | IORes.error e => (1, IORes.error e)

/- ===== Part 2: the diff annotation engine, modelled from the spec ===== -/

/-- Line kinds of the unified-diff line taxonomy (spec §3). -/
inductive Kind
  | header
  | hunkHeader
  | removed
  | added
  | context
  | other
deriving DecidableEq

/-- Whether a line starts with the given marker character. -/
def startsWithChar (c : Char) : List Char → Bool
  | [] => false
  | d :: _ => d == c

/-- Whether a line starts with the unified-diff hunk-header marker. -/
def startsWithAtAt : List Char → Bool
  | '@' :: '@' :: _ => true
  | _ => false

/-- Modelled from the spec: §4.1 Line Classifier (outside src/) —
recognizes hunk-header lines (the `@@` marker), lines beginning with the
removed-line marker, lines beginning with the added-line marker, and all
else as other; a pure total function. -/
def classify (l : List Char) : Kind :=
  if startsWithAtAt l then Kind.hunkHeader
  else if startsWithChar '-' l then Kind.removed
  else if startsWithChar '+' l then Kind.added
  else Kind.other

/-- Modelled from the spec: §4.6 Emitter pass-through — a raw unmodified
line is serialized unchanged. -/
def emitRaw (l : List Char) : List Char := l

/-- Modelled from the spec: §4.2 Hunk Assembler side effect (outside
src/) — removed/added lines are buffered into the hunk (result `none`);
every other line is forwarded untouched to the Emitter immediately. -/
def forwardUntouched (l : List Char) : Option (List Char) :=
  match classify l with
  | Kind.removed => none
  | Kind.added => none
  | _ => some (emitRaw l)

/-- Classification of an EditSpan byte range (spec §3). -/
inductive EditTag
  | unchanged
  | changed
deriving DecidableEq

/-- A byte offset range in a line tagged changed/unchanged (spec §3). -/
structure EditSpan where
  lo : Nat
  hi : Nat
  tag : EditTag
deriving DecidableEq

/-- A byte offset range tagged with a highlight identifier (spec §3). -/
structure StyleSpan where
  lo : Nat
  hi : Nat
  hl : Nat
deriving DecidableEq

/-- A byte offset range carrying the combined style (spec §3). -/
structure MergedSpan where
  lo : Nat
  hi : Nat
  hl : Nat
  tag : EditTag
deriving DecidableEq

/-- Whether the spans, read in order starting at byte offset `pos`, are
contiguous (each starts where the previous ended), non-overlapping, and
end exactly at `len` — the partition invariant of spec §3/§8, generic in
the span type via the two range projections. -/
def partitionFromBy (lo hi : σ → Nat) (pos : Nat) : List σ → Nat → Bool
  | [], len => pos == len
  | s :: ss, len =>
      (lo s == pos) && decide (pos ≤ hi s) && partitionFromBy lo hi (hi s) ss len

/-- The partition invariant for an EditSpan sequence over a line of `len` bytes. -/
def editSpansPartition (ss : List EditSpan) (len : Nat) : Bool :=
  partitionFromBy EditSpan.lo EditSpan.hi 0 ss len

/-- The partition invariant for a StyleSpan sequence over a line of `len` bytes. -/
def styleSpansPartition (ss : List StyleSpan) (len : Nat) : Bool :=
  partitionFromBy StyleSpan.lo StyleSpan.hi 0 ss len

/-- The partition invariant for a MergedSpan sequence over a line of `len` bytes. -/
def mergedSpansPartition (ss : List MergedSpan) (len : Nat) : Bool :=
  partitionFromBy MergedSpan.lo MergedSpan.hi 0 ss len

/-- Character class used for tokenization: whitespace, word, or punctuation. -/
def charClass (c : Char) : Nat :=
  if c.isWhitespace then 0 else if c.isAlphanum then 1 else 2

/-- Modelled from the spec: §4.4 tokenization (outside src/) — split a
line into maximal word / whitespace-run / punctuation-run substrings,
preserving delimiters as their own tokens so reconstruction is lossless. -/
def tokenize : List Char → List (List Char)
  | [] => []
  | c :: cs =>
    match tokenize cs with
    | [] => [[c]]
    | [] :: ts => [c] :: [] :: ts
    | (d :: t) :: ts =>
      if charClass c == charClass d then (c :: d :: t) :: ts
      else [c] :: (d :: t) :: ts

/-- Longest common subsequence of two token sequences, fuelled so that it
is structurally recursive (the fuel is an upper bound on the total length
and never runs out when called through `lcs`). -/
def lcsF : Nat → List (List Char) → List (List Char) → List (List Char)
  | 0, _, _ => []
  | _ + 1, [], _ => []
  | _ + 1, _ :: _, [] => []
  | fuel + 1, a :: as, b :: bs =>
    if a == b then a :: lcsF fuel as bs
    else
      if (lcsF fuel (a :: as) bs).length < (lcsF fuel as (b :: bs)).length
      then lcsF fuel as (b :: bs)
      else lcsF fuel (a :: as) bs

/-- Modelled from the spec: §4.4 — the longest common token subsequence
between the two token sequences (classic sequence alignment). -/
def lcs (xs ys : List (List Char)) : List (List Char) :=
  lcsF (xs.length + ys.length) xs ys

/-- Mark each token of a line: `true` (Unchanged) when it is the next
token of the common subsequence, `false` (Changed) otherwise (spec §4.4:
tokens present in the common subsequence are Unchanged; all others are
Changed). -/
def markTokens : List (List Char) → List (List Char) → List (List Char × Bool)
  | [], _ => []
  | t :: ts, [] => (t, false) :: markTokens ts []
  | t :: ts, c :: cs =>
    if t == c then (t, true) :: markTokens ts cs
    else (t, false) :: markTokens ts (c :: cs)

/-- Convert marked tokens into byte-offset EditSpans starting at `pos`
(spec §4.4: token-level classification back to byte-offset spans). -/
def spansFrom (pos : Nat) : List (List Char × Bool) → List EditSpan
  | [] => []
  | (t, u) :: rest =>
    EditSpan.mk pos (pos + t.length)
        (if u then EditTag.unchanged else EditTag.changed)
      :: spansFrom (pos + t.length) rest

/-- Merge adjacent same-classification spans into a single span (spec §4.4). -/
def mergeAdjacent : List EditSpan → List EditSpan
  | [] => []
  | s :: rest =>
    match mergeAdjacent rest with
    | [] => [s]
    | t :: ts =>
      if s.tag == t.tag then EditSpan.mk s.lo t.hi s.tag :: ts
      else s :: t :: ts

/-- EditSpans of one side of a pair, from its tokens and the common
token subsequence. -/
def editSpansOf (tokens common : List (List Char)) : List EditSpan :=
  mergeAdjacent (spansFrom 0 (markTokens tokens common))

/-- Modelled from the spec: §4.4 Intra-Line Differencer (outside src/) —
tokenize both lines, compute the longest common token subsequence, mark
common tokens Unchanged and all others Changed, convert back to
byte-offset EditSpans merging adjacent same-classification tokens; an
empty line gets the single zero-length Unchanged span. -/
def intraLineEditSpans (r a : List Char) : List EditSpan × List EditSpan :=
  (if r.isEmpty then [EditSpan.mk 0 0 EditTag.unchanged]
   else editSpansOf (tokenize r) (lcs (tokenize r) (tokenize a)),
   if a.isEmpty then [EditSpan.mk 0 0 EditTag.unchanged]
   else editSpansOf (tokenize a) (lcs (tokenize r) (tokenize a)))

/-- The simplified single-span whole-line-Changed form (spec §4.4 edge
case and §8 length-threshold bypass). -/
def wholeLineChanged (l : List Char) : List EditSpan :=
  [EditSpan.mk 0 l.length EditTag.changed]

/-- Configuration options recognized by the core (spec §6); only the
field the formalized claims mention is carried. -/
structure DiffConfig where
  max_line_length_for_diffing : Nat
deriving DecidableEq

/-- Modelled from the spec: the length-threshold bypass (§6, §8) — a
pair with a side longer than `max_line_length_for_diffing` is not given
to the Intra-Line Differencer and is rendered as a whole-line change.
The Bool records whether the differencer ran. -/
def renderPair (cfg : DiffConfig) (r a : List Char) :
    Bool × List EditSpan × List EditSpan :=
  if cfg.max_line_length_for_diffing < r.length
      ∨ cfg.max_line_length_for_diffing < a.length then
    (false, wholeLineChanged r, wholeLineChanged a)
  else
    (true, (intraLineEditSpans r a).1, (intraLineEditSpans r a).2)

/-- Modelled from the spec: the external Highlighter capability (§6) —
`highlight(line_bytes, language_id)` must return a full partition of the
line into StyleSpans, deterministic, with a default style for ranges it
cannot classify; modelled as one StyleSpan per token carrying a
class-derived highlight identifier. -/
def styleFrom (pos : Nat) : List (List Char) → List StyleSpan
  | [] => []
  | t :: ts =>
    StyleSpan.mk pos (pos + t.length) (charClass (t.headD ' '))
      :: styleFrom (pos + t.length) ts

/-- The modelled highlighter applied to a whole line. -/
def modelHighlight (l : List Char) : List StyleSpan :=
  styleFrom 0 (tokenize l)

/-- Modelled from the spec: §4.5 `combine` — the syntax highlight and the
change classification are orthogonal channels, layered, never one
overriding the other. -/
def combine (hl : Nat) (t : EditTag) : Nat × EditTag := (hl, t)

/-- Modelled from the spec: §4.5 Style Merger sweep (outside src/) — walk
both partitions in increasing byte-offset order; at each step emit a
MergedSpan covering the overlap of the current EditSpan and StyleSpan,
styled with `combine`; advance whichever span ends first (the other
keeps its remainder).  Fuelled to be structurally recursive; the fuel is
an upper bound on the total number of spans and never runs out when
called through `mergeSpans`. -/
def mergeSweepF : Nat → Nat → List EditSpan → List StyleSpan → List MergedSpan
  | 0, _, _, _ => []
  | _ + 1, _, [], _ => []
  | _ + 1, _, _ :: _, [] => []
  | fuel + 1, pos, e :: es, s :: ss =>
    if e.hi < s.hi then
      MergedSpan.mk pos e.hi (combine s.hl e.tag).1 (combine s.hl e.tag).2
        :: mergeSweepF fuel e.hi es (StyleSpan.mk e.hi s.hi s.hl :: ss)
    else if s.hi < e.hi then
      MergedSpan.mk pos s.hi (combine s.hl e.tag).1 (combine s.hl e.tag).2
        :: mergeSweepF fuel s.hi (EditSpan.mk s.hi e.hi e.tag :: es) ss
    else
      MergedSpan.mk pos e.hi (combine s.hl e.tag).1 (combine s.hl e.tag).2
        :: mergeSweepF fuel e.hi es ss

/-- The Style Merger on a line's EditSpans and StyleSpans. -/
def mergeSpans (es : List EditSpan) (ss : List StyleSpan) : List MergedSpan :=
  mergeSweepF (es.length + ss.length) 0 es ss

/-- Modelled from the spec: §4.3 similarity — normalized token-level
overlap, the ratio of matching tokens (the longest common token
subsequence) to total tokens, a score in [0,1]. -/
def similarity (r a : List Char) : ℚ :=
  if (tokenize r).length + (tokenize a).length == 0 then 0
  else
    mkRat (2 * (lcs (tokenize r) (tokenize a)).length)
      ((tokenize r).length + (tokenize a).length)

/-- Modelled from the spec: §4.3 greedy matching policy (outside src/) —
repeatedly select the highest-scoring unpaired (removed, added) index
combination; if it exceeds the threshold, commit it and remove both
indices from further consideration; otherwise stop.  Returns the matched
index pairs plus the leftover unmatched removed and added indices.
Fuelled (one unit per committed pair; `pairHunk` supplies enough). -/
def greedyMatch (score : Nat → Nat → ℚ) (threshold : ℚ) :
    Nat → List Nat → List Nat → List (Nat × Nat) × List Nat × List Nat
  | 0, rs, as => ([], rs, as)
  | fuel + 1, rs, as =>
    match (rs.product as).argmax (fun p => score p.1 p.2) with
    | none => ([], rs, as)
    | some (i, j) =>
      if threshold < score i j then
        ((i, j) :: (greedyMatch score threshold fuel (rs.erase i) (as.erase j)).1,
         (greedyMatch score threshold fuel (rs.erase i) (as.erase j)).2.1,
         (greedyMatch score threshold fuel (rs.erase i) (as.erase j)).2.2)
      else ([], rs, as)

/-- A Pair (spec §3): zero-or-one removed line index with zero-or-one
added line index. -/
structure Pair where
  removed : Option Nat
  added : Option Nat
deriving DecidableEq

/-- Modelled from the spec: §4.3 Line Pairer (outside src/) — the greedy
matching phase run on a hunk: every removed/added line-index combination
is scored by similarity of the lines, and matching is greedy above the
minimum-similarity threshold. -/
def hunkMatch (threshold : ℚ) (removed added : List (List Char)) :
    List (Nat × Nat) × List Nat × List Nat :=
  greedyMatch (fun i j => similarity (removed.getD i []) (added.getD j []))
    threshold removed.length (List.range removed.length)
    (List.range added.length)

/-- Modelled from the spec: §4.3 — the Pairs of a hunk: matched
combinations become two-sided Pairs, remaining unpaired removed lines
become Pairs with no added side (pure deletions) and remaining unpaired
added lines become Pairs with no removed side (pure insertions). -/
def pairHunk (threshold : ℚ) (removed added : List (List Char)) : List Pair :=
  (hunkMatch threshold removed added).1.map
      (fun p => Pair.mk (some p.1) (some p.2))
    ++ (hunkMatch threshold removed added).2.1.map
      (fun i => Pair.mk (some i) none)
    ++ (hunkMatch threshold removed added).2.2.map
      (fun j => Pair.mk none (some j))

/- ===== Concrete instances used by witnesses and counterexamples ===== -/

/-- An option set with no subcommand flag, no files: the stdin pipeline path. -/
def optPipeline : Opt :=
  Opt.mk false false false false false false false none none 2

/-- An option set with `list_languages` plus both positional files. -/
def optFlagAndFiles : Opt :=
  Opt.mk true false false false false false false (some "a") (some "b") 2

/-- An option set with `list_languages` and only the minus file. -/
def optFlagAndMinus : Opt :=
  Opt.mk true false false false false false false (some "a") none 2

/-- An option set with both positional files and nothing else. -/
def optTwoFiles : Opt :=
  Opt.mk false false false false false false false (some "a") (some "b") 2

/-- An option set with only the minus file. -/
def optMinusOnly : Opt :=
  Opt.mk false false false false false false false (some "a") none 2

/-- An option set with only `list_languages`. -/
def optListLang : Opt :=
  Opt.mk true false false false false false false none none 2

/-- An environment in which every external call succeeds and the
two-file diff reports that the files differ (exit code 1). -/
def envOkDiff1 : Env :=
  Env.mk (fun _ => IORes.ok) (IORes.ok) 1 (IORes.ok)

/-- An environment in which the delta pipeline fails with a
non-broken-pipe I/O error. -/
def envDeltaOther : Env :=
  Env.mk (fun _ => IORes.ok) (IORes.ok) 1 (IORes.error ErrKind.other)

/-- An environment in which every subcommand fails with a
non-broken-pipe I/O error. -/
def envSubErr : Env :=
  Env.mk (fun _ => IORes.error ErrKind.other) (IORes.ok) 1 (IORes.ok)

/-- An environment in which the delta pipeline reports a broken pipe. -/
def envDeltaBp : Env :=
  Env.mk (fun _ => IORes.ok) (IORes.ok) 1
    (IORes.error ErrKind.brokenPipe)

/-- An environment in which every subcommand reports a broken pipe. -/
def envSubBp : Env :=
  Env.mk (fun _ => IORes.error ErrKind.brokenPipe) (IORes.ok) 1
    (IORes.ok)

/-- A writer whose sink closes after the third write (spec §8 scenario 4). -/
def writerClosesAt3 : Nat → IORes :=
  fun j => if j < 3 then IORes.ok else IORes.error ErrKind.brokenPipe

/- ===== Theorems ===== -/

/-- The subcommand chain selects some subcommand exactly when one of the
six flags is set. -/
theorem chooseSubcommand_isSome (opt : Opt) :
    (chooseSubcommand opt).isSome = anySubcommandFlag opt := by
  unfold chooseSubcommand anySubcommandFlag
  split_ifs <;> simp_all

/-- The pipeline processes no input past the first failing write: if all
writes before index `i` succeed and the write at `i` fails, at most
`i + 1 - s` lines are processed when writing starts at index `s ≤ i`. -/
theorem runPipeline_stops (i : Nat) (w : Nat → IORes) (e : ErrKind)
    (hok : ∀ j, j < i → w j = IORes.ok)
    (hbp : w i = IORes.error e) :
    ∀ (ls : List (List Char)) (s : Nat), s ≤ i →
      (runPipeline ls w s).1 ≤ i + 1 - s := by
  intro ls
  induction ls with
  | nil => intro s _; simp [runPipeline]
  | cons l ls ih =>
    intro s hs
    by_cases h : s = i
    · subst h
      simp [runPipeline, hbp]
    · have hlt : s < i := lt_of_le_of_ne hs h
      have hw := hok s hlt
      have hrec := ih (s + 1) (by omega)
      simp only [runPipeline, hw]
      omega

/-- If every write either succeeds or reports a broken pipe, the
pipeline's result is success or broken pipe. -/
theorem runPipeline_result (w : Nat → IORes)
    (hw : ∀ j, w j = IORes.ok ∨ w j = IORes.error ErrKind.brokenPipe) :
    ∀ (ls : List (List Char)) (s : Nat),
      (runPipeline ls w s).2 = IORes.ok
        ∨ (runPipeline ls w s).2 = IORes.error ErrKind.brokenPipe := by
  intro ls
  induction ls with
  | nil => intro s; simp [runPipeline]
  | cons l ls ih =>
    intro s
    rcases hw s with h | h
    · simpa only [runPipeline, h] using ih (s + 1)
    · simp [runPipeline, h]

/-- C1 counterexample: on the stdin diff-pipeline path with a
non-broken-pipe I/O failure, the failure is reported but `run_app`
returns exit code 0 — not the distinguished non-zero outcome the claim
requires. -/
theorem c1_counterexample :
    envDeltaOther.deltaResult = IORes.error ErrKind.other ∧
    (run_app optPipeline envDeltaOther).1.count Effect.reportError = 1 ∧
    (run_app optPipeline envDeltaOther).2 = Outcome.exitCode 0 := by decide

/-- C1 (amended): on the main diff pipeline path, a read or write failure
other than broken pipe is reported exactly once, but `run_app` returns
exit code 0 — a success-equivalent outcome rather than a distinguished
non-zero exit code. -/
theorem c1_reported_once_but_exit_zero (opt : Opt) (env : Env)
    (hs : chooseSubcommand opt = none) (hc : opt.show_config = false)
    (hm : opt.minus_file = none) (hp : opt.plus_file = none)
    (hd : env.deltaResult = IORes.error ErrKind.other) :
    (run_app opt env).1.count Effect.reportError = 1 ∧
    (run_app opt env).2 = Outcome.exitCode 0 := by
  simp [run_app, hs, hc, hm, hp, hd, List.count_cons]

/-- C1 witness at a concrete option set and environment. -/
theorem c1_witness :
    (run_app optPipeline envDeltaOther).1.count Effect.reportError = 1 ∧
    (run_app optPipeline envDeltaOther).2 = Outcome.exitCode 0 :=
  c1_reported_once_but_exit_zero optPipeline envDeltaOther rfl rfl rfl rfl rfl

/-- C2: when the output sink closes early (a write fails with broken
pipe), the pipeline stops processing further input — no line past the
failing write is processed — and `run_app` ends with the
success-equivalent exit code 0, both on the stdin diff-pipeline path and
on the subcommand paths. -/
theorem c2_broken_pipe_stops_and_exit_zero (opt : Opt) (env : Env)
    (lines : List (List Char)) (w : Nat → IORes) (i : Nat)
    (hok : ∀ j, j < i → w j = IORes.ok)
    (hbp : w i = IORes.error ErrKind.brokenPipe) :
    (runPipeline lines w 0).1 ≤ i + 1 ∧
    ((∀ j, w j = IORes.ok ∨ w j = IORes.error ErrKind.brokenPipe) →
      env.deltaResult = (runPipeline lines w 0).2 →
      chooseSubcommand opt = none → opt.show_config = false →
      opt.minus_file = none → opt.plus_file = none →
      (run_app opt env).2 = Outcome.exitCode 0 ∧
        Effect.reportError ∉ (run_app opt env).1) ∧
    (∀ sc, chooseSubcommand opt = some sc →
      env.subcommandResult sc = IORes.error ErrKind.brokenPipe →
      (run_app opt env).2 = Outcome.exitCode 0 ∧
        Effect.reportError ∉ (run_app opt env).1) := by
  refine ⟨?_, ?_, ?_⟩
  · have h := runPipeline_stops i w ErrKind.brokenPipe hok hbp lines 0 (by omega)
    omega
  · intro hw hd hs hc hm hp
    rcases runPipeline_result w hw lines 0 with h | h <;>
      rw [h] at hd <;> simp [run_app, hs, hc, hm, hp, hd]
  · intro sc hsc hr
    simp [run_app, hsc, hr]

/-- C2 witness: the spec §8 scenario — the sink closes after the third
write, the pipeline processes at most four lines, and `run_app` exits
with code 0 on both the pipeline path and a subcommand path. -/
theorem c2_witness :
    (runPipeline [['a'], ['b'], ['c'], ['d'], ['e']] writerClosesAt3 0).1 ≤ 4 ∧
    ((run_app optPipeline envDeltaBp).2 = Outcome.exitCode 0 ∧
      Effect.reportError ∉ (run_app optPipeline envDeltaBp).1) ∧
    ((run_app optListLang envSubBp).2 = Outcome.exitCode 0 ∧
      Effect.reportError ∉ (run_app optListLang envSubBp).1) := by
  have h1 := c2_broken_pipe_stops_and_exit_zero optPipeline envDeltaBp
    [['a'], ['b'], ['c'], ['d'], ['e']] writerClosesAt3 3
    (fun j hj => by simp [writerClosesAt3, hj]) (by decide)
  have h2 := c2_broken_pipe_stops_and_exit_zero optListLang envSubBp
    [['a'], ['b'], ['c'], ['d'], ['e']] writerClosesAt3 3
    (fun j hj => by simp [writerClosesAt3, hj]) (by decide)
  refine ⟨h1.1, ?_, h2.2.2 Subcmd.listLanguages rfl rfl⟩
  refine h1.2.1 ?_ (by decide) rfl rfl rfl rfl
  intro j
  by_cases h : j < 3 <;> simp [writerClosesAt3, h]

/-- C8 counterexample: with both positional files supplied but
`list_languages` also set, `run_app` dispatches the subcommand and
returns exit code 0 instead of the two-file diff's exit code (1 here,
the files differ), so the claim fails as stated. -/
theorem c8_counterexample :
    optFlagAndFiles.minus_file = some "a" ∧
    optFlagAndFiles.plus_file = some "b" ∧
    envOkDiff1.diffExitCode = 1 ∧
    (run_app optFlagAndFiles envOkDiff1).2 = Outcome.exitCode 0 ∧
    (run_app optFlagAndFiles envOkDiff1).2
      ≠ Outcome.exitCode envOkDiff1.diffExitCode ∧
    Effect.runDiff ∉ (run_app optFlagAndFiles envOkDiff1).1 := by decide

/-- C8 (amended): whenever both positional files are supplied the
stdin-reading delta pipeline is never invoked; and if additionally no
subcommand flag is set and show_config is off, `run_app` runs the
two-file diff and returns exactly its exit code. -/
theorem c8_two_files_diff_exit (opt : Opt) (env : Env) (mf pf : String)
    (hm : opt.minus_file = some mf) (hp : opt.plus_file = some pf) :
    Effect.runDelta ∉ (run_app opt env).1 ∧
    (chooseSubcommand opt = none → opt.show_config = false →
      (run_app opt env).2 = Outcome.exitCode env.diffExitCode ∧
        Effect.runDiff ∈ (run_app opt env).1) := by
  rcases h : chooseSubcommand opt with _ | sc
  · cases hc : opt.show_config
    · simp [run_app, h, hc, hm, hp]
    · rcases hr : env.showConfigResult with _ | k <;>
        simp [run_app, h, hc, hr]
  · rcases hr : env.subcommandResult sc with _ | k
    · simp [run_app, h, hr]
    · cases k <;> simp [run_app, h, hr]

/-- C8 witness at a concrete option set and environment. -/
theorem c8_witness :
    Effect.runDelta ∉ (run_app optTwoFiles envOkDiff1).1 ∧
    (run_app optTwoFiles envOkDiff1).2
      = Outcome.exitCode envOkDiff1.diffExitCode ∧
    Effect.runDiff ∈ (run_app optTwoFiles envOkDiff1).1 :=
  ⟨(c8_two_files_diff_exit optTwoFiles envOkDiff1 "a" "b" rfl rfl).1,
   (c8_two_files_diff_exit optTwoFiles envOkDiff1 "a" "b" rfl rfl).2 rfl rfl⟩

/-- C9 counterexample: with `list_languages` set and the subcommand
failing with a non-broken-pipe I/O error, `run_app` does not return exit
code 0 — `fatal` ends the process with a distinguished non-zero outcome
instead. -/
theorem c9_counterexample :
    anySubcommandFlag optListLang = true ∧
    (run_app optListLang envSubErr).2 = Outcome.fatalExit ∧
    (run_app optListLang envSubErr).2 ≠ Outcome.exitCode 0 := by decide

/-- C9 (amended): whenever a subcommand flag is set, `run_app` dispatches
exactly one subcommand — the one chosen by the fixed precedence chain
`chooseSubcommand` — and neither the delta pipeline nor the pager is
started; it returns exit code 0 unless the subcommand fails with a
non-broken-pipe I/O error, in which case the failure is reported once
and the process ends via `fatal` with a distinguished non-zero outcome
rather than returning 0. -/
theorem c9_subcommand_dispatch (opt : Opt) (env : Env)
    (hf : anySubcommandFlag opt = true) :
    ∃ sc, chooseSubcommand opt = some sc ∧
      (run_app opt env).1.filter isDispatchEffect
        = [Effect.runSubcommand sc] ∧
      Effect.startPager ∉ (run_app opt env).1 ∧
      Effect.runDelta ∉ (run_app opt env).1 ∧
      ((env.subcommandResult sc = IORes.error ErrKind.other ∧
          (run_app opt env).2 = Outcome.fatalExit ∧
          (run_app opt env).1.count Effect.reportError = 1) ∨
        (env.subcommandResult sc ≠ IORes.error ErrKind.other ∧
          (run_app opt env).2 = Outcome.exitCode 0)) := by
  have hsome : (chooseSubcommand opt).isSome = true := by
    rw [chooseSubcommand_isSome]; exact hf
  rcases h : chooseSubcommand opt with _ | sc
  · rw [h] at hsome; simp at hsome
  · refine ⟨sc, rfl, ?_⟩
    rcases hr : env.subcommandResult sc with u | k
    · simp [run_app, h, hr, isDispatchEffect, List.filter]
    · cases k <;>
        simp [run_app, h, hr, isDispatchEffect, List.filter, List.count_cons]

/-- C9 witness at a concrete option set and environment. -/
theorem c9_witness :
    ∃ sc, chooseSubcommand optListLang = some sc ∧
      (run_app optListLang envOkDiff1).1.filter isDispatchEffect
        = [Effect.runSubcommand sc] ∧
      Effect.startPager ∉ (run_app optListLang envOkDiff1).1 ∧
      Effect.runDelta ∉ (run_app optListLang envOkDiff1).1 ∧
      ((envOkDiff1.subcommandResult sc = IORes.error ErrKind.other ∧
          (run_app optListLang envOkDiff1).2 = Outcome.fatalExit ∧
          (run_app optListLang envOkDiff1).1.count Effect.reportError = 1) ∨
        (envOkDiff1.subcommandResult sc ≠ IORes.error ErrKind.other ∧
          (run_app optListLang envOkDiff1).2 = Outcome.exitCode 0)) :=
  c9_subcommand_dispatch optListLang envOkDiff1 rfl

/-- C10 counterexample: with only the minus file supplied but
`list_languages` also set, `run_app` runs the subcommand and returns
exit code 0, not the configured error_exit_code (2), and prints no usage
message — so the claim fails as stated. -/
theorem c10_counterexample :
    optFlagAndMinus.minus_file = some "a" ∧
    optFlagAndMinus.plus_file = none ∧
    optFlagAndMinus.error_exit_code = 2 ∧
    (run_app optFlagAndMinus envOkDiff1).2 = Outcome.exitCode 0 ∧
    (run_app optFlagAndMinus envOkDiff1).2
      ≠ Outcome.exitCode optFlagAndMinus.error_exit_code ∧
    Effect.printUsage ∉ (run_app optFlagAndMinus envOkDiff1).1 := by decide

/-- C10 (amended): whenever exactly one of the two positional files is
supplied and no subcommand flag is set and show_config is off, `run_app`
prints the usage message to stderr and returns the configured
error_exit_code, without running the delta pipeline (reading stdin) or
the two-file diff. -/
theorem c10_single_file_usage (opt : Opt) (env : Env)
    (hs : chooseSubcommand opt = none) (hc : opt.show_config = false)
    (hx : opt.minus_file.isSome ≠ opt.plus_file.isSome) :
    Effect.printUsage ∈ (run_app opt env).1 ∧
    (run_app opt env).2 = Outcome.exitCode opt.error_exit_code ∧
    Effect.runDelta ∉ (run_app opt env).1 ∧
    Effect.runDiff ∉ (run_app opt env).1 := by
  rcases hm : opt.minus_file with _ | mf <;>
    rcases hp : opt.plus_file with _ | pf
  · rw [hm, hp] at hx; simp at hx
  · simp [run_app, hs, hc, hm, hp]
  · simp [run_app, hs, hc, hm, hp]
  · rw [hm, hp] at hx; simp at hx

/-- C10 witness at a concrete option set and environment. -/
theorem c10_witness :
    Effect.printUsage ∈ (run_app optMinusOnly envOkDiff1).1 ∧
    (run_app optMinusOnly envOkDiff1).2
      = Outcome.exitCode optMinusOnly.error_exit_code ∧
    Effect.runDelta ∉ (run_app optMinusOnly envOkDiff1).1 ∧
    Effect.runDiff ∉ (run_app optMinusOnly envOkDiff1).1 :=
  c10_single_file_usage optMinusOnly envOkDiff1 rfl rfl (by decide)

/-- C7: a line that does not fit the expected diff-line classification is
never rejected or failed on: the (total) classifier tags it Other and the
assembler forwards it to the output verbatim, unchanged. -/
theorem c7_malformed_lines_pass_through (l : List Char)
    (h1 : startsWithAtAt l = false)
    (h2 : startsWithChar '-' l = false)
    (h3 : startsWithChar '+' l = false) :
    classify l = Kind.other ∧ forwardUntouched l = some l := by
  have hk : classify l = Kind.other := by simp [classify, h1, h2, h3]
  exact ⟨hk, by simp [forwardUntouched, hk, emitRaw]⟩

/-- C7 witness at a concrete unrecognizable line. -/
theorem c7_witness :
    classify ['h', 'i'] = Kind.other ∧
    forwardUntouched ['h', 'i'] = some ['h', 'i'] :=
  c7_malformed_lines_pass_through ['h', 'i'] rfl rfl rfl

/-- C5: the Intra-Line Differencer is a deterministic function of its
input pair — two runs on the same (removed, added) line pair yield
identical EditSpans; the embedding is a pure function of the pair alone,
with no randomness and no iteration-order dependence. -/
theorem c5_alignment_deterministic (r a r2 a2 : List Char)
    (hr : r = r2) (ha : a = a2) :
    intraLineEditSpans r a = intraLineEditSpans r2 a2 := by
  rw [hr, ha]

/-- C5 witness: two runs on the same concrete pair. -/
theorem c5_witness :
    intraLineEditSpans ['f', 'o', 'o'] ['f', 'o', 'x']
      = intraLineEditSpans ['f', 'o', 'o'] ['f', 'o', 'x'] :=
  c5_alignment_deterministic ['f', 'o', 'o'] ['f', 'o', 'x']
    ['f', 'o', 'o'] ['f', 'o', 'x'] rfl rfl

/-- C6: a pair with a line longer than max_line_length_for_diffing is
never passed to the Intra-Line Differencer; it is rendered as a
whole-line change (pure insert/delete). -/
theorem c6_length_threshold_bypass (cfg : DiffConfig) (r a : List Char)
    (h : cfg.max_line_length_for_diffing < r.length
      ∨ cfg.max_line_length_for_diffing < a.length) :
    (renderPair cfg r a).1 = false ∧
    (renderPair cfg r a).2.1 = wholeLineChanged r ∧
    (renderPair cfg r a).2.2 = wholeLineChanged a := by
  simp [renderPair, h]

/-- C6 witness: a removed line of length 3 with the threshold at 2. -/
theorem c6_witness :
    (renderPair (DiffConfig.mk 2) ['a', 'b', 'c'] ['x']).1 = false ∧
    (renderPair (DiffConfig.mk 2) ['a', 'b', 'c'] ['x']).2.1
      = wholeLineChanged ['a', 'b', 'c'] ∧
    (renderPair (DiffConfig.mk 2) ['a', 'b', 'c'] ['x']).2.2
      = wholeLineChanged ['x'] :=
  c6_length_threshold_bypass (DiffConfig.mk 2) ['a', 'b', 'c'] ['x']
    (Or.inl (by decide))

/-- Tokenization is lossless: the tokens of a line concatenate back to
the line (spec §4.4 "preserving delimiters ... so reconstruction is
lossless"). -/
theorem tokenize_join : ∀ l : List Char, (tokenize l).flatten = l
  | [] => rfl
  | c :: cs => by
    have ih := tokenize_join cs
    rcases h : tokenize cs with _ | ⟨t, ts⟩
    · rw [h] at ih
      simp only [List.flatten_nil] at ih
      simp [tokenize, h, ih.symm]
    · rcases t with _ | ⟨d, t2⟩
      · rw [h] at ih
        simp only [List.flatten_cons, List.nil_append] at ih
        simp [tokenize, h, ih]
      · rw [h] at ih
        simp only [List.flatten_cons] at ih
        cases hc : charClass c == charClass d <;>
          simp [tokenize, h, hc, ih]

/-- Marking tokens against a common subsequence keeps the token sequence
itself unchanged. -/
theorem markTokens_fst : ∀ (ts cs : List (List Char)),
    (markTokens ts cs).map Prod.fst = ts
  | [], _ => rfl
  | t :: ts, [] => by
    simp [markTokens, markTokens_fst ts []]
  | t :: ts, c :: cs => by
    cases h : t == c
    · simp [markTokens, h, markTokens_fst ts (c :: cs)]
    · simp [markTokens, h, markTokens_fst ts cs]

/-- The spans generated from marked tokens partition the byte range the
tokens cover, starting at any offset. -/
theorem spansFrom_partition : ∀ (m : List (List Char × Bool)) (pos : Nat),
    partitionFromBy EditSpan.lo EditSpan.hi pos (spansFrom pos m)
      (pos + (m.map (fun p => p.1.length)).sum) = true
  | [], pos => by simp [spansFrom, partitionFromBy]
  | (t, u) :: m, pos => by
    have ih := spansFrom_partition m (pos + t.length)
    simp only [spansFrom, partitionFromBy, List.map_cons, List.sum_cons,
      Bool.and_eq_true, beq_iff_eq, decide_eq_true_eq]
    refine ⟨⟨True.intro, Nat.le_add_right _ _⟩, ?_⟩
    rw [← Nat.add_assoc]
    exact ih

/-- Merging adjacent same-classification spans preserves the partition
invariant. -/
theorem mergeAdjacent_partition : ∀ (l : List EditSpan) (pos len : Nat),
    partitionFromBy EditSpan.lo EditSpan.hi pos l len = true →
    partitionFromBy EditSpan.lo EditSpan.hi pos (mergeAdjacent l) len = true
  | [], _, _, h => h
  | s :: rest, pos, len, h => by
    simp only [partitionFromBy, Bool.and_eq_true, beq_iff_eq,
      decide_eq_true_eq] at h
    obtain ⟨⟨hlo, hle⟩, hrest⟩ := h
    have ih := mergeAdjacent_partition rest s.hi len hrest
    simp only [mergeAdjacent]
    rcases hm : mergeAdjacent rest with _ | ⟨t, ts⟩
    · rw [hm] at ih
      simp only [partitionFromBy, beq_iff_eq] at ih
      simp [partitionFromBy, hlo, ih]
      omega
    · rw [hm] at ih
      simp only [partitionFromBy, Bool.and_eq_true, beq_iff_eq,
        decide_eq_true_eq] at ih
      obtain ⟨⟨hto, htle⟩, hts⟩ := ih
      cases hteq : s.tag == t.tag
      · simp [partitionFromBy, hlo, hle, hteq, hto, htle, hts]
      · simp only [hteq, if_pos]
        simp [partitionFromBy, hlo, hts]
        omega

/-- The EditSpans built for one side of a pair partition that line. -/
theorem editSpansOf_partition (tokens common : List (List Char)) (len : Nat)
    (h : tokens.flatten.length = len) :
    editSpansPartition (editSpansOf tokens common) len = true := by
  unfold editSpansPartition editSpansOf
  apply mergeAdjacent_partition
  have hp := spansFrom_partition (markTokens tokens common) 0
  have hsum : ((markTokens tokens common).map (fun p => p.1.length)).sum
      = len := by
    have hmap : (markTokens tokens common).map (fun p => p.1.length)
        = ((markTokens tokens common).map Prod.fst).map List.length := by
      simp [List.map_map, Function.comp]
    rw [hmap, markTokens_fst, ← List.length_flatten, h]
  rw [hsum] at hp
  simpa using hp

/-- The differencer output for the removed side partitions the removed line. -/
theorem intraLine_partition_fst (r a : List Char) :
    editSpansPartition (intraLineEditSpans r a).1 r.length = true := by
  unfold intraLineEditSpans
  rcases r with _ | ⟨c, cs⟩
  · simp [editSpansPartition, partitionFromBy]
  · simp only [List.isEmpty_cons, if_neg, Bool.false_eq_true]
    exact editSpansOf_partition _ _ _ (by rw [tokenize_join])

/-- The differencer output for the added side partitions the added line. -/
theorem intraLine_partition_snd (r a : List Char) :
    editSpansPartition (intraLineEditSpans r a).2 a.length = true := by
  unfold intraLineEditSpans
  rcases a with _ | ⟨c, cs⟩
  · simp [editSpansPartition, partitionFromBy]
  · simp only [List.isEmpty_cons, if_neg, Bool.false_eq_true]
    exact editSpansOf_partition _ _ _ (by rw [tokenize_join])

/-- The whole-line-Changed form partitions the line. -/
theorem wholeLine_partition (l : List Char) :
    editSpansPartition (wholeLineChanged l) l.length = true := by
  simp [wholeLineChanged, editSpansPartition, partitionFromBy]

/-- The modelled highlighter's style spans partition the byte range the
tokens cover, starting at any offset. -/
theorem styleFrom_partition : ∀ (ts : List (List Char)) (pos : Nat),
    partitionFromBy StyleSpan.lo StyleSpan.hi pos (styleFrom pos ts)
      (pos + (ts.map List.length).sum) = true
  | [], pos => by simp [styleFrom, partitionFromBy]
  | t :: ts, pos => by
    have ih := styleFrom_partition ts (pos + t.length)
    simp only [styleFrom, partitionFromBy, List.map_cons, List.sum_cons,
      Bool.and_eq_true, beq_iff_eq, decide_eq_true_eq]
    refine ⟨⟨True.intro, Nat.le_add_right _ _⟩, ?_⟩
    rw [← Nat.add_assoc]
    exact ih

/-- The modelled highlighter returns a full partition of the line, as the
Highlighter capability contract (spec §6) requires. -/
theorem modelHighlight_partition (l : List Char) :
    styleSpansPartition (modelHighlight l) l.length = true := by
  unfold styleSpansPartition modelHighlight
  have hp := styleFrom_partition (tokenize l) 0
  have hlen : ((tokenize l).map List.length).sum = l.length := by
    rw [← List.length_flatten, tokenize_join]
  rw [hlen] at hp
  simpa using hp

/-- The merge sweep of two partitions of the same byte range is again a
partition of that range: the sweep always advances and never double-emits
or skips a byte range (spec §4.5 guarantee). -/
theorem mergeSweepF_partition :
    ∀ (fuel : Nat) (es : List EditSpan) (ss : List StyleSpan) (pos len : Nat),
      es.length + ss.length ≤ fuel →
      partitionFromBy EditSpan.lo EditSpan.hi pos es len = true →
      partitionFromBy StyleSpan.lo StyleSpan.hi pos ss len = true →
      partitionFromBy MergedSpan.lo MergedSpan.hi pos
        (mergeSweepF fuel pos es ss) len = true
  | 0, es, ss, pos, len, hf, he, _ => by
    rcases es with _ | ⟨e, es⟩
    · simp only [partitionFromBy, beq_iff_eq] at he
      simp [mergeSweepF, partitionFromBy, he]
    · simp at hf
  | fuel + 1, [], ss, pos, len, _, he, _ => by
    simp only [partitionFromBy, beq_iff_eq] at he
    simp [mergeSweepF, partitionFromBy, he]
  | fuel + 1, e :: es, [], pos, len, _, _, hs => by
    simp only [partitionFromBy, beq_iff_eq] at hs
    simp [mergeSweepF, partitionFromBy, hs]
  | fuel + 1, e :: es, s :: ss, pos, len, hf, he, hs => by
    simp only [partitionFromBy, Bool.and_eq_true, beq_iff_eq,
      decide_eq_true_eq] at he hs
    obtain ⟨⟨helo, hele⟩, herest⟩ := he
    obtain ⟨⟨hslo, hsle⟩, hsrest⟩ := hs
    simp only [List.length_cons] at hf
    by_cases h1 : e.hi < s.hi
    · have hstail : partitionFromBy StyleSpan.lo StyleSpan.hi e.hi
          (StyleSpan.mk e.hi s.hi s.hl :: ss) len = true := by
        simp only [partitionFromBy, Bool.and_eq_true, beq_iff_eq,
          decide_eq_true_eq]
        exact ⟨⟨True.intro, Nat.le_of_lt h1⟩, hsrest⟩
      have ih := mergeSweepF_partition fuel es
        (StyleSpan.mk e.hi s.hi s.hl :: ss) e.hi len
        (by simp; omega) herest hstail
      simp only [mergeSweepF, if_pos h1]
      simp only [partitionFromBy, Bool.and_eq_true, beq_iff_eq,
        decide_eq_true_eq]
      exact ⟨⟨True.intro, hele⟩, ih⟩
    · by_cases h2 : s.hi < e.hi
      · have hetail : partitionFromBy EditSpan.lo EditSpan.hi s.hi
            (EditSpan.mk s.hi e.hi e.tag :: es) len = true := by
          simp only [partitionFromBy, Bool.and_eq_true, beq_iff_eq,
            decide_eq_true_eq]
          exact ⟨⟨True.intro, Nat.le_of_lt h2⟩, herest⟩
        have ih := mergeSweepF_partition fuel
          (EditSpan.mk s.hi e.hi e.tag :: es) ss s.hi len
          (by simp; omega) hetail hsrest
        simp only [mergeSweepF, if_neg h1, if_pos h2]
        simp only [partitionFromBy, Bool.and_eq_true, beq_iff_eq,
          decide_eq_true_eq]
        exact ⟨⟨True.intro, hsle⟩, ih⟩
      · have heq : e.hi = s.hi := by omega
        have ih := mergeSweepF_partition fuel es ss e.hi len
          (by omega) herest (by rw [heq]; exact hsrest)
        simp only [mergeSweepF, if_neg h1, if_neg h2]
        simp only [partitionFromBy, Bool.and_eq_true, beq_iff_eq,
          decide_eq_true_eq]
        exact ⟨⟨True.intro, hele⟩, ih⟩

/-- The Style Merger's output partitions the line whenever its two inputs do. -/
theorem mergeSpans_partition (es : List EditSpan) (ss : List StyleSpan)
    (len : Nat) (he : editSpansPartition es len = true)
    (hs : styleSpansPartition ss len = true) :
    mergedSpansPartition (mergeSpans es ss) len = true :=
  mergeSweepF_partition (es.length + ss.length) es ss 0 len le_rfl he hs

/-- C3: partition invariant — for any line, the EditSpan sequences the
Intra-Line Differencer produces (including the whole-line bypass form),
the StyleSpan sequence the modelled highlighter produces, and the
MergedSpan sequence the Style Merger produces from any EditSpans and
StyleSpans that partition the line (the highlighter capability's §6
contract), each consist of contiguous, non-overlapping byte ranges whose
union is exactly the full byte range of that line; each is computed
afresh from that line's data alone. -/
theorem c3_partition_invariant (r a l : List Char) (len : Nat)
    (es : List EditSpan) (ss : List StyleSpan) :
    editSpansPartition (intraLineEditSpans r a).1 r.length = true ∧
    editSpansPartition (intraLineEditSpans r a).2 a.length = true ∧
    editSpansPartition (wholeLineChanged l) l.length = true ∧
    styleSpansPartition (modelHighlight l) l.length = true ∧
    (editSpansPartition es len = true → styleSpansPartition ss len = true →
      mergedSpansPartition (mergeSpans es ss) len = true) :=
  ⟨intraLine_partition_fst r a, intraLine_partition_snd r a,
   wholeLine_partition l, modelHighlight_partition l,
   fun he hs => mergeSpans_partition es ss len he hs⟩

/-- C3 witness at concrete lines and concrete partition inputs. -/
theorem c3_witness :
    editSpansPartition
      [EditSpan.mk 0 1 EditTag.changed, EditSpan.mk 1 4 EditTag.unchanged]
      4 = true ∧
    styleSpansPartition [StyleSpan.mk 0 2 5, StyleSpan.mk 2 4 7] 4 = true ∧
    editSpansPartition
      (intraLineEditSpans ['f', 'o', 'o'] ['f', 'o', 'x']).1 3 = true ∧
    mergedSpansPartition
      (mergeSpans
        [EditSpan.mk 0 1 EditTag.changed, EditSpan.mk 1 4 EditTag.unchanged]
        [StyleSpan.mk 0 2 5, StyleSpan.mk 2 4 7]) 4 = true :=
  ⟨by decide, by decide,
   (c3_partition_invariant ['f', 'o', 'o'] ['f', 'o', 'x'] ['a', 'b'] 4
      [EditSpan.mk 0 1 EditTag.changed, EditSpan.mk 1 4 EditTag.unchanged]
      [StyleSpan.mk 0 2 5, StyleSpan.mk 2 4 7]).1,
   (c3_partition_invariant ['f', 'o', 'o'] ['f', 'o', 'x'] ['a', 'b'] 4
      [EditSpan.mk 0 1 EditTag.changed, EditSpan.mk 1 4 EditTag.unchanged]
      [StyleSpan.mk 0 2 5, StyleSpan.mk 2 4 7]).2.2.2.2
     (by decide) (by decide)⟩

/-- Every index the greedy matcher commits on the removed side comes from
`rs`, and together with the leftover removed indices they are exactly a
permutation of `rs` — no index is dropped or duplicated. -/
theorem greedyMatch_perm_removed (score : Nat → Nat → ℚ) (θ : ℚ) :
    ∀ (fuel : Nat) (rs as : List Nat),
      List.Perm ((greedyMatch score θ fuel rs as).1.map Prod.fst
        ++ (greedyMatch score θ fuel rs as).2.1) rs
  | 0, rs, as => by simp [greedyMatch]
  | fuel + 1, rs, as => by
    rcases h : (rs.product as).argmax (fun p => score p.1 p.2) with _ | ⟨i, j⟩
    · simp [greedyMatch, h]
    · have hmem : (i, j) ∈ rs.product as := List.argmax_mem h
      have hij := List.pair_mem_product.mp hmem
      by_cases ht : θ < score i j
      · have ih := greedyMatch_perm_removed score θ fuel (rs.erase i) (as.erase j)
        simp only [greedyMatch, h, if_pos ht, List.map_cons, List.cons_append]
        exact (ih.cons i).trans (List.perm_cons_erase hij.1).symm
      · simp [greedyMatch, h, ht]

/-- The added-side analogue of `greedyMatch_perm_removed`. -/
theorem greedyMatch_perm_added (score : Nat → Nat → ℚ) (θ : ℚ) :
    ∀ (fuel : Nat) (rs as : List Nat),
      List.Perm ((greedyMatch score θ fuel rs as).1.map Prod.snd
        ++ (greedyMatch score θ fuel rs as).2.2) as
  | 0, rs, as => by simp [greedyMatch]
  | fuel + 1, rs, as => by
    rcases h : (rs.product as).argmax (fun p => score p.1 p.2) with _ | ⟨i, j⟩
    · simp [greedyMatch, h]
    · have hmem : (i, j) ∈ rs.product as := List.argmax_mem h
      have hij := List.pair_mem_product.mp hmem
      by_cases ht : θ < score i j
      · have ih := greedyMatch_perm_added score θ fuel (rs.erase i) (as.erase j)
        simp only [greedyMatch, h, if_pos ht, List.map_cons, List.cons_append]
        exact (ih.cons j).trans (List.perm_cons_erase hij.2).symm
      · simp [greedyMatch, h, ht]

/-- The removed sides collected over the matched segment of `pairHunk`. -/
theorem filterMap_removed_matched : ∀ (m : List (Nat × Nat)),
    (m.map (fun p => Pair.mk (some p.1) (some p.2))).filterMap Pair.removed
      = m.map Prod.fst
  | [] => rfl
  | p :: m => by
    simp [List.filterMap_cons, filterMap_removed_matched m]

/-- The removed sides collected over the removed-only segment of `pairHunk`. -/
theorem filterMap_removed_deleted : ∀ (m : List Nat),
    (m.map (fun i => Pair.mk (some i) none)).filterMap Pair.removed = m
  | [] => rfl
  | i :: m => by
    simp [List.filterMap_cons, filterMap_removed_deleted m]

/-- The added-only segment contributes no removed sides. -/
theorem filterMap_removed_inserted : ∀ (m : List Nat),
    (m.map (fun j => Pair.mk none (some j))).filterMap Pair.removed = []
  | [] => rfl
  | j :: m => by
    simp [List.filterMap_cons, filterMap_removed_inserted m]

/-- The added sides collected over the matched segment of `pairHunk`. -/
theorem filterMap_added_matched : ∀ (m : List (Nat × Nat)),
    (m.map (fun p => Pair.mk (some p.1) (some p.2))).filterMap Pair.added
      = m.map Prod.snd
  | [] => rfl
  | p :: m => by
    simp [List.filterMap_cons, filterMap_added_matched m]

/-- The removed-only segment contributes no added sides. -/
theorem filterMap_added_deleted : ∀ (m : List Nat),
    (m.map (fun i => Pair.mk (some i) none)).filterMap Pair.added = []
  | [] => rfl
  | i :: m => by
    simp [List.filterMap_cons, filterMap_added_deleted m]

/-- The added sides collected over the added-only segment of `pairHunk`. -/
theorem filterMap_added_inserted : ∀ (m : List Nat),
    (m.map (fun j => Pair.mk none (some j))).filterMap Pair.added = m
  | [] => rfl
  | j :: m => by
    simp [List.filterMap_cons, filterMap_added_inserted m]

/-- The removed sides of a hunk pairing are a permutation of the removed
line indices 0..R-1: every removed line appears in exactly one Pair. -/
theorem pairHunk_removed_perm (θ : ℚ) (removed added : List (List Char)) :
    List.Perm ((pairHunk θ removed added).filterMap Pair.removed)
      (List.range removed.length) := by
  unfold pairHunk
  rw [List.filterMap_append, List.filterMap_append,
    filterMap_removed_matched, filterMap_removed_deleted,
    filterMap_removed_inserted, List.append_nil]
  exact greedyMatch_perm_removed _ θ removed.length
    (List.range removed.length) (List.range added.length)

/-- The added sides of a hunk pairing are a permutation of the added line
indices 0..A-1: every added line appears in exactly one Pair. -/
theorem pairHunk_added_perm (θ : ℚ) (removed added : List (List Char)) :
    List.Perm ((pairHunk θ removed added).filterMap Pair.added)
      (List.range added.length) := by
  unfold pairHunk
  rw [List.filterMap_append, List.filterMap_append,
    filterMap_added_matched, filterMap_added_deleted,
    filterMap_added_inserted, List.append_nil]
  exact greedyMatch_perm_added _ θ removed.length
    (List.range removed.length) (List.range added.length)

/-- The two-sided Pairs of a hunk pairing are exactly the matched
combinations. -/
theorem pairHunk_matched_filter (θ : ℚ) (removed added : List (List Char)) :
    (pairHunk θ removed added).filter
        (fun p => p.removed.isSome && p.added.isSome)
      = (hunkMatch θ removed added).1.map
        (fun p => Pair.mk (some p.1) (some p.2)) := by
  unfold pairHunk
  rw [List.filter_append, List.filter_append]
  have h1 : ∀ (m : List (Nat × Nat)),
      (m.map (fun p => Pair.mk (some p.1) (some p.2))).filter
          (fun p => p.removed.isSome && p.added.isSome)
        = m.map (fun p => Pair.mk (some p.1) (some p.2)) := by
    intro m
    induction m with
    | nil => rfl
    | cons p m ih => simp [List.filter_cons, ih]
  have h2 : ∀ (m : List Nat),
      (m.map (fun i => Pair.mk (some i) none)).filter
          (fun p => p.removed.isSome && p.added.isSome) = [] := by
    intro m
    induction m with
    | nil => rfl
    | cons i m ih => simp [List.filter_cons, ih]
  have h3 : ∀ (m : List Nat),
      (m.map (fun j => Pair.mk none (some j))).filter
          (fun p => p.removed.isSome && p.added.isSome) = [] := by
    intro m
    induction m with
    | nil => rfl
    | cons j m ih => simp [List.filter_cons, ih]
  rw [h1, h2, h3, List.append_nil, List.append_nil]

/-- C4 counterexample: a hunk with one removed line and one added line of
zero similarity is fully unmatched (no two-sided Pair), yet the Pairer
produces 2 Pairs — a pure deletion and a pure insertion — not
max(R,A) = 1 as the claim states. -/
theorem c4_counterexample :
    ((pairHunk (mkRat 1 2) [['a']] [['b']]).filter
        (fun p => p.removed.isSome && p.added.isSome)).length = 0 ∧
    (pairHunk (mkRat 1 2) [['a']] [['b']]).length = 2 ∧
    ¬((pairHunk (mkRat 1 2) [['a']] [['b']]).length = max 1 1) := by decide

/-- C4 (amended): for a hunk with R removed and A added lines of which k
combinations match, the Line Pairer produces R + A − k Pairs — R + A
when fully unmatched, and never fewer than max(R,A) — and every
removed-line index and every added-line index appears in exactly one
Pair: no line is dropped and no line is paired twice. -/
theorem c4_pairing_totality (θ : ℚ) (removed added : List (List Char)) :
    (pairHunk θ removed added).length
        + ((pairHunk θ removed added).filter
            (fun p => p.removed.isSome && p.added.isSome)).length
      = removed.length + added.length ∧
    max removed.length added.length ≤ (pairHunk θ removed added).length ∧
    List.Perm ((pairHunk θ removed added).filterMap Pair.removed)
      (List.range removed.length) ∧
    List.Perm ((pairHunk θ removed added).filterMap Pair.added)
      (List.range added.length) ∧
    (∀ i, i < removed.length →
      ((pairHunk θ removed added).filterMap Pair.removed).count i = 1) ∧
    (∀ j, j < added.length →
      ((pairHunk θ removed added).filterMap Pair.added).count j = 1) := by
  have hrp := pairHunk_removed_perm θ removed added
  have hap := pairHunk_added_perm θ removed added
  have hrlen := hrp.length_eq
  have halen := hap.length_eq
  rw [List.length_range] at hrlen halen
  have hk := congrArg List.length (pairHunk_matched_filter θ removed added)
  rw [List.length_map] at hk
  have hfmr : ((pairHunk θ removed added).filterMap Pair.removed).length
      = (hunkMatch θ removed added).1.length
        + (hunkMatch θ removed added).2.1.length := by
    unfold pairHunk
    rw [List.filterMap_append, List.filterMap_append,
      filterMap_removed_matched, filterMap_removed_deleted,
      filterMap_removed_inserted, List.append_nil, List.length_append,
      List.length_map]
  have hfma : ((pairHunk θ removed added).filterMap Pair.added).length
      = (hunkMatch θ removed added).1.length
        + (hunkMatch θ removed added).2.2.length := by
    unfold pairHunk
    rw [List.filterMap_append, List.filterMap_append,
      filterMap_added_matched, filterMap_added_deleted,
      filterMap_added_inserted]
    simp
  have hplen : (pairHunk θ removed added).length
      = (hunkMatch θ removed added).1.length
        + (hunkMatch θ removed added).2.1.length
        + (hunkMatch θ removed added).2.2.length := by
    unfold pairHunk
    simp [List.length_append]
    omega
  refine ⟨by omega, by omega, hrp, hap, ?_, ?_⟩
  · intro i hi
    rw [hrp.count_eq]
    exact List.count_eq_one_of_mem (List.nodup_range _)
      (List.mem_range.mpr hi)
  · intro j hj
    rw [hap.count_eq]
    exact List.count_eq_one_of_mem (List.nodup_range _)
      (List.mem_range.mpr hj)

/-- C4 witness at a concrete hunk, instantiating the exactly-once counts. -/
theorem c4_witness :
    ((pairHunk (mkRat 1 2) [['a', 'b']] [['a', 'b'], ['c']]).filterMap
        Pair.removed).count 0 = 1 ∧
    ((pairHunk (mkRat 1 2) [['a', 'b']] [['a', 'b'], ['c']]).filterMap
        Pair.added).count 1 = 1 ∧
    (pairHunk (mkRat 1 2) [['a', 'b']] [['a', 'b'], ['c']]).length
        + ((pairHunk (mkRat 1 2) [['a', 'b']] [['a', 'b'], ['c']]).filter
            (fun p => p.removed.isSome && p.added.isSome)).length = 3 :=
  ⟨(c4_pairing_totality (mkRat 1 2) [['a', 'b']] [['a', 'b'], ['c']]).2.2.2.2.1
      0 (by decide),
   (c4_pairing_totality (mkRat 1 2) [['a', 'b']] [['a', 'b'], ['c']]).2.2.2.2.2
      1 (by decide),
   (c4_pairing_totality (mkRat 1 2) [['a', 'b']] [['a', 'b'], ['c']]).1⟩

end Delta
